import Mathlib

/-!
# Verification of the family-photo-service ingestion/aggregation pipeline

A shallow embedding of the core pipeline of `app/storage.py` and
`app/calendar.py`:

* the collision-avoiding persistence writer `save_file`,
* the EXIF capture-date extractor `_exif_taken_date`,
* the catalog reader `list_files`,
* the calendar aggregator `month_summary`,
* the path resolver `get_path`.

The filesystem is modelled as an association list from file names to byte
lists; the PIL image-open boundary is modelled as an `Except`-valued oracle
(an exception or an EXIF tag listing); Python string formatting, splitting
and truthiness are modelled explicitly at the character-list level so that
every definition evaluates inside the kernel.
-/

namespace FamilyPhoto

/-! ## Python-level string helpers -/

/-- Decimal digit characters of `n`, most significant first, fuel-bounded so
that the kernel can evaluate it.  `natDigitsAux fuel n` is correct whenever
`n < fuel`.  This embeds Python's `str(i)` / f-string formatting of a
non-negative integer. -/
def natDigitsAux : Nat → Nat → List Char
  | 0, _ => []
  | fuel + 1, n =>
    if n < 10 then [Nat.digitChar n]
    else natDigitsAux fuel (n / 10) ++ [Nat.digitChar (n % 10)]

/-- Decimal digit characters of `n`, most significant first. -/
def natDigits (n : Nat) : List Char :=
  natDigitsAux (n + 1) n

/-- Numeric value of a list of decimal digit characters (inverse of
`natDigits` on its image). -/
def digitsVal (l : List Char) : Nat :=
  l.foldl (fun a c => a * 10 + (c.toNat - 48)) 0

/-- Python `str(n)` for a natural number. -/
def pyNatRepr (n : Nat) : String :=
  ⟨natDigits n⟩

/-- Split a character list on a separator character; embeds Python
`s.split(sep)` for a single-character separator (also the component
splitting used by `str.split("-")` in date parsing). -/
def splitOnChar (c : Char) : List Char → List (List Char)
  | [] => [[]]
  | x :: xs =>
    let r := splitOnChar c xs
    if x = c then [] :: r
    else
      match r with
      | [] => [[x]]
      | h :: t => (x :: h) :: t

/-- Python truthiness of an `Optional[str]` value: `None` and the empty
string are falsy. -/
def pyTruthy : Option String → Bool
  | none => false
  | some s => !(s == "")

/-- Codepoint-lexicographic string comparison on character lists; this is
exactly Python's `<=` on `str` (comparison by Unicode code points), used to
embed `sorted(..., key=..., reverse=True)`. -/
def strLe : List Char → List Char → Bool
  | [], _ => true
  | _ :: _, [] => false
  | x :: xs, y :: ys =>
    if x.toNat < y.toNat then true
    else if y.toNat < x.toNat then false
    else strLe xs ys

/-! ## Date parsing boundary

`month_summary` calls two CPython library parsers.  They are external to the
repository, so they are embedded here restricted to what the aggregator
consumes (the (year, month, day) triple), following their documented
behaviour: `strptime(s, "%Y-%m-%d")` (exactly four year digits, one or two
month and day digits, value ranges enforced, whole string consumed,
calendar-valid day) and the date component of `fromisoformat` (zero-padded
`YYYY-MM-DD` before the `T` separator; the time-of-day portion is not
further validated here because only the date component feeds the summary
and the service always passes `datetime.isoformat()` output). -/

/-- Nonempty and all decimal digits. -/
def isDigitList (l : List Char) : Bool :=
  !l.isEmpty && l.all (·.isDigit)

/-- Gregorian leap-year rule, as used by `datetime`. -/
def isLeapYear (y : Nat) : Bool :=
  (y % 4 == 0 && y % 100 != 0) || y % 400 == 0

/-- Number of days of month `m` of year `y`, as validated by the
`datetime.date` constructor. -/
def daysInMonth (y m : Nat) : Nat :=
  if m = 2 then (if isLeapYear y then 29 else 28)
  else if m = 4 || m = 6 || m = 9 || m = 11 then 30
  else 31

/-- Range and calendar validity of a parsed (year, month, day) triple,
as enforced by `strptime` together with the `datetime` constructor. -/
def validYmd (y m d : Nat) : Bool :=
  1 ≤ y && 1 ≤ m && m ≤ 12 && 1 ≤ d && d ≤ daysInMonth y m

/-- `datetime.strptime(s, "%Y-%m-%d")`, restricted to the date triple it
produces: exactly four year digits, one or two month/day digits, whole
string consumed, ranges and month length validated; `none` models the
`ValueError` raised on any malformed input. -/
def parseYmd (s : String) : Option (Nat × Nat × Nat) :=
  match splitOnChar '-' s.data with
  | [a, b, c] =>
    if a.length = 4 && isDigitList a
        && (b.length = 1 || b.length = 2) && isDigitList b
        && (c.length = 1 || c.length = 2) && isDigitList c then
      let y := digitsVal a
      let m := digitsVal b
      let d := digitsVal c
      if validYmd y m d then some (y, m, d) else none
    else none
  | _ => none

/-- Strict zero-padded `YYYY-MM-DD`, the date-component syntax accepted by
`datetime.fromisoformat`. -/
def parseYmdPadded (l : List Char) : Option (Nat × Nat × Nat) :=
  match splitOnChar '-' l with
  | [a, b, c] =>
    if a.length = 4 && isDigitList a && b.length = 2 && isDigitList b
        && c.length = 2 && isDigitList c then
      let y := digitsVal a
      let m := digitsVal b
      let d := digitsVal c
      if validYmd y m d then some (y, m, d) else none
    else none
  | _ => none

/-- Date component of `datetime.fromisoformat(s)`: the part of `s` before
the first `T` separator, parsed as strict `YYYY-MM-DD`; `none` models the
`ValueError` raised on a malformed date component. -/
def fromisoDate (s : String) : Option (Nat × Nat × Nat) :=
  match splitOnChar 'T' s.data with
  | datePart :: _ => parseYmdPadded datePart
  | [] => none

/-! ## Data model (`app/models.py`) -/

/-- `FileItem` of `app/models.py`: one catalog record. -/
structure FileItem where
  filename : String
  size_bytes : Nat
  uploaded_at : String
  taken_date : Option String
deriving DecidableEq, Repr

/-- `CalendarMonthSummary` of `app/models.py`; `count_by_day` is the Python
dict in its insertion order, as a list of key/value pairs. -/
structure CalendarMonthSummary where
  year : Int
  month : Int
  days : List Nat
  count_by_day : List (String × Nat)
deriving DecidableEq, Repr

/-! ## Calendar aggregator (`app/calendar.py`, `month_summary`) -/

/-- Effective date of one file, mirroring the body of the `for` loop of
`month_summary`: if `taken_date` is truthy it is parsed with
`strptime("%Y-%m-%d")`, otherwise `uploaded_at` is parsed with
`fromisoformat`; a parse failure is the raised `ValueError`. -/
def effDate (f : FileItem) : Except String (Nat × Nat × Nat) :=
  if pyTruthy f.taken_date then
    match parseYmd (f.taken_date.getD "") with
    | some d => .ok d
    | none => .error "time data does not match format %Y-%m-%d"
  else
    match fromisoDate f.uploaded_at with
    | some d => .ok d
    | none => .error "Invalid isoformat string"

/-- The `days` list built by the loop of `month_summary`: the day-of-month
of every file whose effective year and month equal the target, in input
order; the first parse failure aborts the whole call. -/
def collectMatchedDays (files : List FileItem) (year month : Int) :
    Except String (List Nat) :=
  match files with
  | [] => .ok []
  | f :: fs =>
    match effDate f with
    | .error e => .error e
    | .ok (y, m, d) =>
      match collectMatchedDays fs year month with
      | .error e => .error e
      | .ok ds => .ok (if (y : Int) = year ∧ (m : Int) = month then d :: ds else ds)

/-- Keep-one-copy deduplication (the extensional content of Python's
`set(days)`; the retained occurrence is irrelevant because the result is
sorted afterwards). -/
def dedupNat : List Nat → List Nat
  | [] => []
  | x :: xs => if x ∈ xs then dedupNat xs else x :: dedupNat xs

/-- Insert `x` into `l` in front of the first element `y` with
`before x y = true`. -/
def insertBy {α : Type} (before : α → α → Bool) (x : α) : List α → List α
  | [] => [x]
  | y :: ys => if before x y then x :: y :: ys else y :: insertBy before x ys

/-- Insertion sort with respect to `before`; with a non-strict `before`
this is stable and therefore extensionally equal to Python's `sorted`. -/
def sortBy {α : Type} (before : α → α → Bool) : List α → List α
  | [] => []
  | x :: xs => insertBy before x (sortBy before xs)

/-- Python `sorted(set(days))`. -/
def dedupSort (l : List Nat) : List Nat :=
  sortBy (fun a b => a ≤ b) (dedupNat l)

/-- `month_summary(files, year, month)` of `app/calendar.py`: collects the
matching day values, then returns `days = sorted(set(days))` and
`count_by_day = \x7bstr(k): v for k, v in sorted(cnt.items())\x7d`, i.e. the
ascending distinct days each paired with its multiplicity in the collected
list; a `ValueError` from either date parser propagates as `.error`. -/
def month_summary (files : List FileItem) (year month : Int) :
    Except String CalendarMonthSummary :=
  match collectMatchedDays files year month with
  | .error e => .error e
  | .ok ds =>
    let sdays := dedupSort ds
    .ok ⟨year, month, sdays, sdays.map (fun d => (pyNatRepr d, ds.count d))⟩

/-- Day contributed by file `f` to the (year, month) bucket: `some d`
when `f`'s effective date parses and matches the target, `none` when it
parses but does not match; derived from `effDate`. -/
def dayOf (year month : Int) (f : FileItem) : Option Nat :=
  match effDate f with
  | .ok (y, m, d) => if (y : Int) = year ∧ (m : Int) = month then some d else none
  | .error _ => none

/-! ## Metadata extractor (`app/storage.py`, `_exif_taken_date`)

The PIL boundary (`Image.open` + `getexif`) is external to the repository;
it is modelled as an `Except`-valued input: a raised exception (file is not
an image, corrupted, unsupported, unreadable — anything thrown inside the
`try` block) or the EXIF items, each numeric tag key already mapped through
`TAGS.get`, hence an `Option String` key (`none` for an unknown tag). -/

/-- EXIF items after the `TAGS.get` key mapping. -/
abbrev ExifItems := List (Option String × String)

/-- The dict comprehension `tag_map` followed by `tag_map.get(key)`: a
later item with the same key overwrites an earlier one, and a missing key
yields `None`. -/
def dictGet (items : ExifItems) (k : Option String) : Option String :=
  items.foldl (fun acc kv => if kv.1 = k then some kv.2 else acc) none

/-- Python `a or b` on optional strings (`None` and `""` are falsy). -/
def pyOrStr (a b : Option String) : Option String :=
  if pyTruthy a then a else b

/-- `dt.split(" ")[0]`: the characters before the first space. -/
def beforeSpace (s : String) : String :=
  ⟨s.data.takeWhile (· ≠ ' ')⟩

/-- `.replace(":", "-")` for the one-character pattern: a character map. -/
def colonToHyphen (s : String) : String :=
  ⟨s.data.map (fun c => if c = ':' then '-' else c)⟩

/-- The transform `dt.split(" ")[0].replace(":", "-")` applied to a found
EXIF timestamp. -/
def exifDateTransform (s : String) : String :=
  colonToHyphen (beforeSpace s)

/-- `_exif_taken_date(p)` of `app/storage.py`, as a function of the PIL
boundary result for `p`: an exception collapses to `None` (the
`except Exception` handler), an empty EXIF block yields `None`
(`if not exif`), otherwise `DateTimeOriginal or DateTime` is looked up with
Python `or`, a falsy result yields `None` (`if not dt`), and a truthy value
is transformed with `exifDateTransform`. -/
def _exif_taken_date (r : Except String ExifItems) : Option String :=
  match r with
  | .error _ => none
  | .ok exif =>
    if exif.isEmpty then none
    else
      match pyOrStr (dictGet exif (some "DateTimeOriginal"))
          (dictGet exif (some "DateTime")) with
      | none => none
      | some v => if v = "" then none else some (exifDateTransform v)

/-! ## File catalog (`app/storage.py`, `list_files`) -/

/-- One entry of `DATA_DIR.iterdir()`: the direct children of the storage
root (`iterdir` is non-recursive), each flagged by `p.is_file()`, with the
`stat` size and the string `datetime.fromtimestamp(st_mtime).isoformat()`
already rendered by the clock/filesystem boundary. -/
structure DirEntry where
  name : String
  isRegularFile : Bool
  size_bytes : Nat
  uploaded_iso : String
deriving DecidableEq, Repr

/-- The `FileItem` built for one directory entry; `taken_date` comes from
the extractor over the PIL boundary oracle `pil`. -/
def toFileItem (pil : String → Except String ExifItems) (e : DirEntry) : FileItem :=
  ⟨e.name, e.size_bytes, e.uploaded_iso, _exif_taken_date (pil e.name)⟩

/-- `list_files()` of `app/storage.py` over the directory listing and the
PIL oracle: keep the regular files, build their records, and sort by the
`uploaded_at` string descending (`sorted(key=..., reverse=True)`; Python
compares strings by code points, which is `strLe` on the character
lists). -/
def list_files (entries : List DirEntry) (pil : String → Except String ExifItems) :
    List FileItem :=
  sortBy (fun a b => strLe b.uploaded_at.data a.uploaded_at.data)
    ((entries.filter (·.isRegularFile)).map (toFileItem pil))

/-! ## Persistence writer (`app/storage.py`, `save_file`) -/

/-- The storage root contents: an association list from file name to the
stored bytes, modelling the flat `data/` directory. -/
abbrev FS := List (String × List Nat)

/-- Bytes stored under name `n`. -/
def lookupFile : FS → String → Option (List Nat)
  | [], _ => none
  | (k, v) :: fs, n => if k = n then some v else lookupFile fs n

/-- `(DATA_DIR / n).exists()` over the modelled storage. -/
def pathExists (fs : FS) (n : String) : Bool :=
  (lookupFile fs n).isSome

/-- Index of the last `'.'` in a character list. -/
def lastDotIdx : List Char → Option Nat
  | [] => none
  | c :: cs =>
    match lastDotIdx cs with
    | some i => some (i + 1)
    | none => if c = '.' then some 0 else none

/-- `PurePath.name`: the final '/'-separated component. -/
def pathFinalComponent (s : String) : List Char :=
  ((splitOnChar '/' s.data).getLast?).getD []

/-- `path.stem` and `path.suffix` of CPython's pathlib: the final component
split at its last dot, provided that dot is neither the first nor the last
character (`0 < i < len(name) - 1`); otherwise the stem is the whole name
and the extension is empty. -/
def stemSuffix (s : String) : String × String :=
  match lastDotIdx (pathFinalComponent s) with
  | some i =>
    if 0 < i ∧ i < (pathFinalComponent s).length - 1 then
      (⟨(pathFinalComponent s).take i⟩, ⟨(pathFinalComponent s).drop i⟩)
    else (⟨pathFinalComponent s⟩, "")
  | none => (⟨pathFinalComponent s⟩, "")

/-- The probe name `f"{stem}_{i}{suffix}"`. -/
def candidate (stem suf : String) (i : Nat) : String :=
  stem ++ "_" ++ pyNatRepr i ++ suf

/-- The `while True` probe loop of `save_file`, made total with explicit
fuel; `save_file` supplies `fs.length + 1` units, which always suffice
(`probeLoop_some`), so the `none` case is unreachable. -/
def probeLoop (fs : FS) (stem suf : String) : Nat → Nat → Option String
  | 0, _ => none
  | fuel + 1, i =>
    if pathExists fs (candidate stem suf i) then probeLoop fs stem suf fuel (i + 1)
    else some (candidate stem suf i)

/-- `save_file(filename, content)` of `app/storage.py`: write under the
desired name when it is free, otherwise probe `stem_1.ext`, `stem_2.ext`, …
and write under the first free candidate; returns the saved name together
with the updated storage. -/
def save_file (fs : FS) (filename : String) (content : List Nat) :
    Option (String × FS) :=
  if pathExists fs filename then
    match probeLoop fs (stemSuffix filename).1 (stemSuffix filename).2
        (fs.length + 1) 1 with
    | some c => some (c, (c, content) :: fs)
    | none => none
  else some (filename, (filename, content) :: fs)

/-! ## Path resolution (`app/storage.py`, `get_path`) -/

/-- `get_path(filename)` of `app/storage.py`: `DATA_DIR / filename`, as the
list of '/'-separated path segments (the model covers relative filenames;
for an absolute filename pathlib would drop the root entirely, which
escapes just as badly). -/
def get_path (filename : String) : List String :=
  "data" :: (splitOnChar '/' filename.data).map (fun l => ⟨l⟩)

/-- POSIX-style resolution of `.` and `..` segments of a relative path,
used to interpret where a constructed path actually lands. -/
def normalizePath (segs : List String) : List String :=
  segs.foldl
    (fun acc s =>
      if s = "" ∨ s = "." then acc
      else if s = ".." then acc.dropLast
      else acc ++ [s]) []

/-- Whether a constructed path still lies inside the `data/` storage root
after resolving its `..` segments. -/
def insideRoot (segs : List String) : Bool :=
  match normalizePath segs with
  | "data" :: _ => true
  | _ => false

/-! ## Lemmas about the insertion sort and deduplication -/

theorem perm_insertBy {α : Type} (before : α → α → Bool) (x : α) :
    ∀ l : List α, (insertBy before x l).Perm (x :: l)
  | [] => List.Perm.refl _
  | y :: ys => by
    unfold insertBy
    by_cases h : before x y = true
    · simp [h]
    · simp only [h, if_false]
      exact ((perm_insertBy before x ys).cons y).trans (List.Perm.swap x y ys)

theorem perm_sortBy {α : Type} (before : α → α → Bool) :
    ∀ l : List α, (sortBy before l).Perm l
  | [] => List.Perm.refl _
  | x :: xs =>
    (perm_insertBy before x (sortBy before xs)).trans ((perm_sortBy before xs).cons x)

theorem pairwise_insertBy {α : Type} {before : α → α → Bool}
    (htot : ∀ a b, before a b = true ∨ before b a = true)
    (htrans : ∀ a b c, before a b = true → before b c = true → before a c = true)
    (x : α) : ∀ l : List α, l.Pairwise (fun a c => before a c = true) →
      (insertBy before x l).Pairwise (fun a c => before a c = true)
  | [], _ => by simp [insertBy]
  | y :: ys, h => by
    rw [List.pairwise_cons] at h
    obtain ⟨hy, hys⟩ := h
    unfold insertBy
    by_cases hxy : before x y = true
    · simp only [hxy, if_true]
      refine List.Pairwise.cons ?_ (List.Pairwise.cons hy hys)
      intro z hz
      rcases List.mem_cons.mp hz with rfl | hz'
      · exact hxy
      · exact htrans x y z hxy (hy z hz')
    · simp only [hxy, if_false]
      refine List.Pairwise.cons ?_ (pairwise_insertBy htot htrans x ys hys)
      intro z hz
      rcases List.mem_cons.mp ((perm_insertBy before x ys).mem_iff.mp hz) with rfl | hz'
      · rcases htot z y with h' | h'
        · exact absurd h' hxy
        · exact h'
      · exact hy z hz'

theorem pairwise_sortBy {α : Type} {before : α → α → Bool}
    (htot : ∀ a b, before a b = true ∨ before b a = true)
    (htrans : ∀ a b c, before a b = true → before b c = true → before a c = true) :
    ∀ l : List α, (sortBy before l).Pairwise (fun a c => before a c = true)
  | [] => List.Pairwise.nil
  | x :: xs => pairwise_insertBy htot htrans x _ (pairwise_sortBy htot htrans xs)

theorem mem_dedupNat (a : Nat) : ∀ l : List Nat, a ∈ dedupNat l ↔ a ∈ l
  | [] => Iff.rfl
  | x :: xs => by
    unfold dedupNat
    by_cases h : x ∈ xs
    · simp only [h, if_true, mem_dedupNat a xs, List.mem_cons]
      constructor
      · exact Or.inr
      · rintro (rfl | h') <;> [exact h; exact h']
    · simp [h, mem_dedupNat a xs]

theorem nodup_dedupNat : ∀ l : List Nat, (dedupNat l).Nodup
  | [] => List.Pairwise.nil
  | x :: xs => by
    unfold dedupNat
    by_cases h : x ∈ xs
    · simpa [h] using nodup_dedupNat xs
    · simp only [h, if_false, List.nodup_cons]
      exact ⟨fun hmem => h ((mem_dedupNat x xs).mp hmem), nodup_dedupNat xs⟩

theorem mem_dedupSort (a : Nat) (l : List Nat) : a ∈ dedupSort l ↔ a ∈ l := by
  rw [dedupSort, (perm_sortBy _ (dedupNat l)).mem_iff, mem_dedupNat]

theorem nodup_dedupSort (l : List Nat) : (dedupSort l).Nodup :=
  ((perm_sortBy _ (dedupNat l)).nodup_iff).mpr (nodup_dedupNat l)

theorem sorted_lt_dedupSort (l : List Nat) : (dedupSort l).Pairwise (· < ·) := by
  have hle : (dedupSort l).Pairwise (fun a c : Nat => (decide (a ≤ c)) = true) :=
    pairwise_sortBy (fun a b => by rcases Nat.le_total a b with h | h <;> simp [h])
      (fun a b c hab hbc => by
        simp only [decide_eq_true_eq] at *
        omega)
      (dedupNat l)
  have hne : (dedupSort l).Pairwise (· ≠ ·) := nodup_dedupSort l
  exact (hle.and hne).imp (fun h => by
    obtain ⟨h1, h2⟩ := h
    simp only [decide_eq_true_eq] at h1
    omega)

/-! ## Decimal rendering is injective -/

theorem digitChar_toNat : ∀ k, k < 10 → (Nat.digitChar k).toNat = 48 + k := by decide

theorem digitsVal_snoc (l : List Char) (c : Char) :
    digitsVal (l ++ [c]) = digitsVal l * 10 + (c.toNat - 48) := by
  simp [digitsVal, List.foldl_append]

theorem digitsVal_natDigitsAux :
    ∀ fuel n, n < fuel → digitsVal (natDigitsAux fuel n) = n
  | 0, n, h => absurd h (by omega)
  | fuel + 1, n, h => by
    unfold natDigitsAux
    by_cases h10 : n < 10
    · simp [h10, digitsVal, digitChar_toNat n h10]
    · have hdiv : n / 10 < fuel := by omega
      rw [if_neg h10, digitsVal_snoc, digitsVal_natDigitsAux fuel (n / 10) hdiv,
        digitChar_toNat (n % 10) (by omega)]
      omega

theorem natDigits_inj {m n : Nat} (h : natDigits m = natDigits n) : m = n := by
  have h1 := digitsVal_natDigitsAux (m + 1) m (by omega)
  have h2 := digitsVal_natDigitsAux (n + 1) n (by omega)
  rw [natDigits] at h
  rw [← h1, h, natDigits] at *
  omega

theorem candidate_inj (stem suf : String) {i j : Nat}
    (h : candidate stem suf i = candidate stem suf j) : i = j := by
  have hd := congrArg String.data h
  simp only [candidate, String.data_append] at hd
  have hd2 := List.append_cancel_right hd
  have hd3 := List.append_cancel_left hd2
  exact natDigits_inj hd3

/-! ## Code-point string comparison is a total preorder -/

theorem strLe_total : ∀ a b : List Char, strLe a b = true ∨ strLe b a = true
  | [], _ => Or.inl rfl
  | _ :: _, [] => Or.inr rfl
  | x :: xs, y :: ys => by
    unfold strLe
    by_cases h1 : x.toNat < y.toNat
    · left
      simp [h1]
    · by_cases h2 : y.toNat < x.toNat
      · right
        simp [h1, h2]
      · rcases strLe_total xs ys with h | h <;> [left; right] <;> simp [h1, h2, h]

theorem strLe_trans :
    ∀ a b c : List Char, strLe a b = true → strLe b c = true → strLe a c = true
  | [], _, _, _, _ => rfl
  | _ :: _, [], _, hab, _ => by simp [strLe] at hab
  | _ :: _, _ :: _, [], _, hbc => by simp [strLe] at hbc
  | x :: xs, y :: ys, z :: zs, hab, hbc => by
    unfold strLe at hab hbc ⊢
    by_cases h1 : x.toNat < y.toNat
    · by_cases h2 : y.toNat < z.toNat
      · simp [show x.toNat < z.toNat by omega]
      · by_cases h2' : z.toNat < y.toNat
        · simp [h2, h2'] at hbc
        · simp [show x.toNat < z.toNat by omega]
    · by_cases h1' : y.toNat < x.toNat
      · simp [h1, h1'] at hab
      · by_cases h2 : y.toNat < z.toNat
        · simp [show x.toNat < z.toNat by omega]
        · by_cases h2' : z.toNat < y.toNat
          · simp [h2, h2'] at hbc
          · have hxs : strLe xs ys = true := by simpa [h1, h1'] using hab
            have hys : strLe ys zs = true := by simpa [h2, h2'] using hbc
            simp [show ¬ x.toNat < z.toNat by omega, show ¬ z.toNat < x.toNat by omega,
              strLe_trans xs ys zs hxs hys]

/-! ## Probe-loop lemmas -/

theorem probeLoop_none_occupied (fs : FS) (stem suf : String) :
    ∀ fuel i, probeLoop fs stem suf fuel i = none →
      ∀ k, k < fuel → pathExists fs (candidate stem suf (i + k)) = true
  | 0, _, _, _, hk => absurd hk (by omega)
  | fuel + 1, i, h, k, hk => by
    unfold probeLoop at h
    by_cases hc : pathExists fs (candidate stem suf i) = true
    · rw [if_pos hc] at h
      match k with
      | 0 => simpa using hc
      | k' + 1 =>
        have hrec := probeLoop_none_occupied fs stem suf fuel (i + 1) h k' (by omega)
        rwa [show i + 1 + k' = i + (k' + 1) by omega] at hrec
    · rw [if_neg hc] at h
      exact Option.noConfusion h

theorem probeLoop_some_spec (fs : FS) (stem suf : String) :
    ∀ fuel i c, probeLoop fs stem suf fuel i = some c →
      ∃ k, k < fuel ∧ c = candidate stem suf (i + k) ∧
        pathExists fs c = false ∧
        ∀ j, j < k → pathExists fs (candidate stem suf (i + j)) = true
  | 0, _, _, h => Option.noConfusion h
  | fuel + 1, i, c, h => by
    unfold probeLoop at h
    by_cases hc : pathExists fs (candidate stem suf i) = true
    · rw [if_pos hc] at h
      obtain ⟨k, hk, hcand, hfree, hocc⟩ := probeLoop_some_spec fs stem suf fuel (i + 1) c h
      refine ⟨k + 1, by omega, by rw [hcand]; congr 1; omega, hfree, ?_⟩
      intro j hj
      match j with
      | 0 => simpa using hc
      | j' + 1 =>
        have hrec := hocc j' (by omega)
        rwa [show i + 1 + j' = i + (j' + 1) by omega] at hrec
    · rw [if_neg hc] at h
      have hce := Option.some.inj h
      refine ⟨0, by omega, by rw [← hce, Nat.add_zero], ?_, fun j hj => absurd hj (by omega)⟩
      rw [← hce]
      revert hc
      cases pathExists fs (candidate stem suf i) <;> simp

theorem pathExists_mem_keys :
    ∀ (fs : FS) (n : String), pathExists fs n = true → n ∈ fs.map Prod.fst
  | [], n, h => by simp [pathExists, lookupFile] at h
  | (k, v) :: fs, n, h => by
    simp only [pathExists, lookupFile] at h
    by_cases hk : k = n
    · simp [hk]
    · rw [if_neg hk] at h
      exact List.mem_cons_of_mem _ (pathExists_mem_keys fs n h)

theorem probeLoop_some (fs : FS) (stem suf : String) :
    ∃ c, probeLoop fs stem suf (fs.length + 1) 1 = some c := by
  match hp : probeLoop fs stem suf (fs.length + 1) 1 with
  | some c => exact ⟨c, rfl⟩
  | none =>
    exfalso
    have hocc := probeLoop_none_occupied fs stem suf (fs.length + 1) 1 hp
    have hsub : ((List.range (fs.length + 1)).map (fun k => candidate stem suf (1 + k)))
        ⊆ fs.map Prod.fst := by
      intro x hx
      obtain ⟨k, hk, rfl⟩ := List.mem_map.mp hx
      exact pathExists_mem_keys fs _ (hocc k (List.mem_range.mp hk))
    have hinj : Function.Injective (fun k => candidate stem suf (1 + k)) := by
      intro a b hab
      have := candidate_inj stem suf hab
      omega
    have hnd := (List.nodup_range (fs.length + 1)).map hinj
    have hlen := (List.subperm_of_subset hnd hsub).length_le
    simp only [List.length_map, List.length_range] at hlen
    omega

/-! ## Lemmas about `collectMatchedDays` -/

theorem collect_ok (year month : Int) :
    ∀ files : List FileItem, (∀ f ∈ files, (effDate f).isOk) →
      collectMatchedDays files year month = .ok (files.filterMap (dayOf year month))
  | [], _ => rfl
  | f :: fs, h => by
    have hf : (effDate f).isOk := h f (List.mem_cons_self f fs)
    have hfs := collect_ok year month fs (fun g hg => h g (List.mem_cons_of_mem f hg))
    unfold collectMatchedDays
    match he : effDate f with
    | .error e => rw [he] at hf; exact absurd hf (by simp [Except.isOk, Except.toBool])
    | .ok (y, m, d) =>
      rw [hfs]
      simp only [List.filterMap_cons, dayOf, he]
      by_cases hc : (y : Int) = year ∧ (m : Int) = month
      · simp [hc]
      · simp [hc]

theorem collect_error_iff (year month : Int) :
    ∀ files : List FileItem,
      (∃ e, collectMatchedDays files year month = .error e) ↔
        ∃ f ∈ files, ∃ e, effDate f = .error e
  | [] => by simp [collectMatchedDays]
  | f :: fs => by
    unfold collectMatchedDays
    match he : effDate f with
    | .error e => simp [he]
    | .ok (y, m, d) =>
      match hc : collectMatchedDays fs year month with
      | .error e =>
        have := (collect_error_iff year month fs).mp ⟨e, hc⟩
        simp only [List.mem_cons]
        constructor
        · intro _
          obtain ⟨g, hg, hge⟩ := this
          exact ⟨g, Or.inr hg, hge⟩
        · intro _; exact ⟨e, rfl⟩
      | .ok ds =>
        have hrec := collect_error_iff year month fs
        rw [hc] at hrec
        constructor
        · rintro ⟨e, hcontra⟩
          exact Except.noConfusion hcontra
        · rintro ⟨g, hg, e, hge⟩
          rcases List.mem_cons.mp hg with rfl | hg'
          · rw [he] at hge
            exact Except.noConfusion hge
          · obtain ⟨e', he'⟩ := hrec.mpr ⟨g, hg', e, hge⟩
            exact Except.noConfusion he'

theorem count_filterMap_eq_countP (year month : Int) (d : Nat) :
    ∀ files : List FileItem,
      (files.filterMap (dayOf year month)).count d =
        files.countP (fun f => dayOf year month f == some d)
  | [] => rfl
  | f :: fs => by
    rw [List.filterMap_cons, List.countP_cons]
    match hf : dayOf year month f with
    | none => simp [hf, count_filterMap_eq_countP year month d fs]
    | some D =>
      rw [List.count_cons, count_filterMap_eq_countP year month d fs]
      by_cases hD : D = d
      · simp [hD]
      · simp [hD, Ne.symm hD]

/-- Per-file characterisation of the aggregator's failure: `effDate` raises
exactly when a truthy `taken_date` fails `strptime`, or an absent/empty
`taken_date` is paired with an `uploaded_at` whose date `fromisoformat`
rejects. -/
theorem effDate_error_char (f : FileItem)
    (hinv : pyTruthy f.taken_date = false → (fromisoDate f.uploaded_at).isSome = true) :
    (∃ e, effDate f = .error e) ↔
      ∃ s, f.taken_date = some s ∧ s ≠ "" ∧ parseYmd s = none := by
  constructor
  · rintro ⟨e, he⟩
    unfold effDate at he
    by_cases ht : pyTruthy f.taken_date
    · rw [if_pos ht] at he
      match hs : f.taken_date with
      | none => rw [hs] at ht; exact absurd ht (by simp [pyTruthy])
      | some s =>
        have hsne : s ≠ "" := by
          rw [hs] at ht
          simpa [pyTruthy] using ht
        refine ⟨s, rfl, hsne, ?_⟩
        rw [hs] at he
        match hp : parseYmd s with
        | some d =>
          rw [show (some s).getD "" = s from rfl, hp] at he
          exact Except.noConfusion he
        | none => rfl
    · rw [if_neg ht] at he
      obtain ⟨d, hd⟩ := Option.isSome_iff_exists.mp (hinv (by simpa using ht))
      rw [hd] at he
      exact Except.noConfusion he
  · rintro ⟨s, hs, hsne, hp⟩
    refine ⟨"time data does not match format %Y-%m-%d", ?_⟩
    unfold effDate
    rw [hs]
    simp [pyTruthy, hsne, hp]

/-! ## Claim theorems for the calendar aggregator -/

/-- C2.  For every list of files whose present (truthy) `taken_date` values
parse as `YYYY-MM-DD` and whose `uploaded_at` values have a well-formed ISO
date component (the data-model invariant of the catalog), `month_summary`
succeeds; each file's effective date is its parsed `taken_date` when
present, otherwise the date component of `uploaded_at` (this is `dayOf`,
derived from `effDate`); `days` is the ascending de-duplicated list of the
day-of-month values of exactly the files whose effective year and month
equal the target, and `count_by_day` maps each such day, as a decimal
string key in ascending day order, to the number of files matching that
day. -/
theorem month_summary_correct (files : List FileItem) (year month : Int)
    (htaken : ∀ f ∈ files, pyTruthy f.taken_date = true →
      (parseYmd (f.taken_date.getD "")).isSome = true)
    (hupl : ∀ f ∈ files, pyTruthy f.taken_date = false →
      (fromisoDate f.uploaded_at).isSome = true) :
    ∃ s, month_summary files year month = .ok s ∧
      s.year = year ∧ s.month = month ∧
      s.days.Pairwise (· < ·) ∧
      (∀ d, d ∈ s.days ↔ ∃ f ∈ files, dayOf year month f = some d) ∧
      s.count_by_day = s.days.map
        (fun d => (pyNatRepr d,
          files.countP (fun f => dayOf year month f == some d))) := by
  have hok : ∀ f ∈ files, (effDate f).isOk := by
    intro f hf
    unfold effDate
    by_cases ht : pyTruthy f.taken_date
    · rw [if_pos ht]
      obtain ⟨d, hd⟩ := Option.isSome_iff_exists.mp (htaken f hf ht)
      rw [hd]
      rfl
    · rw [if_neg ht]
      obtain ⟨d, hd⟩ := Option.isSome_iff_exists.mp (hupl f hf (by simpa using ht))
      rw [hd]
      rfl
  have hcol := collect_ok year month files hok
  refine ⟨⟨year, month, dedupSort (files.filterMap (dayOf year month)),
      (dedupSort (files.filterMap (dayOf year month))).map
        (fun d => (pyNatRepr d, (files.filterMap (dayOf year month)).count d))⟩,
    ?_, rfl, rfl, sorted_lt_dedupSort _, ?_, ?_⟩
  · unfold month_summary
    rw [hcol]
  · intro d
    rw [mem_dedupSort, List.mem_filterMap]
  · exact congrArg (fun g => List.map g _)
      (funext fun d => by rw [count_filterMap_eq_countP])

/-- Witness for C2 at the spec's count-aggregation example: three files
effective-dated 2024-03-05 (one via `uploaded_at` fallback) and one dated
2024-03-07; all hypotheses are discharged by computation. -/
theorem month_summary_correct_witness :
    ∃ s, month_summary
        [⟨"a.jpg", 10, "2024-05-01T10:00:00", some "2024-03-05"⟩,
         ⟨"b.jpg", 11, "2024-03-05T10:00:00", none⟩,
         ⟨"c.jpg", 12, "2024-03-05T11:00:00", some "2024-03-05"⟩,
         ⟨"d.jpg", 13, "2099-01-01T00:00:00", some "2024-03-07"⟩] 2024 3 = .ok s ∧
      s.year = 2024 ∧ s.month = 3 ∧
      s.days.Pairwise (· < ·) ∧
      (∀ d, d ∈ s.days ↔ ∃ f ∈
        [⟨"a.jpg", 10, "2024-05-01T10:00:00", some "2024-03-05"⟩,
         ⟨"b.jpg", 11, "2024-03-05T10:00:00", none⟩,
         ⟨"c.jpg", 12, "2024-03-05T11:00:00", some "2024-03-05"⟩,
         ⟨"d.jpg", 13, "2099-01-01T00:00:00", some "2024-03-07"⟩],
        dayOf 2024 3 f = some d) ∧
      s.count_by_day = s.days.map
        (fun d => (pyNatRepr d,
          List.countP (fun f => dayOf 2024 3 f == some d)
            [⟨"a.jpg", 10, "2024-05-01T10:00:00", some "2024-03-05"⟩,
             ⟨"b.jpg", 11, "2024-03-05T10:00:00", none⟩,
             ⟨"c.jpg", 12, "2024-03-05T11:00:00", some "2024-03-05"⟩,
             ⟨"d.jpg", 13, "2099-01-01T00:00:00", some "2024-03-07"⟩])) :=
  month_summary_correct _ 2024 3 (by decide) (by decide)

/-- C5.  Under the catalog invariant that every record's `uploaded_at` has a
well-formed ISO date component, `month_summary` fails (with the propagated
parse error) if and only if some file carries a present, non-empty
`taken_date` that does not parse as a valid `YYYY-MM-DD` date; in
particular it never silently falls back to `uploaded_at` for such a file,
and when every present `taken_date` is well-formed the call returns
`.ok`. -/
theorem month_summary_error_iff (files : List FileItem) (year month : Int)
    (hinv : ∀ f ∈ files, pyTruthy f.taken_date = false →
      (fromisoDate f.uploaded_at).isSome = true) :
    (∃ e, month_summary files year month = .error e) ↔
      ∃ f ∈ files, ∃ s, f.taken_date = some s ∧ s ≠ "" ∧ parseYmd s = none := by
  unfold month_summary
  match hc : collectMatchedDays files year month with
  | .error e =>
    have h1 := (collect_error_iff year month files).mp ⟨e, hc⟩
    constructor
    · intro _
      obtain ⟨f, hf, hfe⟩ := h1
      exact ⟨f, hf, (effDate_error_char f (hinv f hf)).mp hfe⟩
    · intro _
      exact ⟨e, rfl⟩
  | .ok ds =>
    constructor
    · rintro ⟨e, he⟩
      exact Except.noConfusion he
    · rintro ⟨f, hf, s, hs, hsne, hp⟩
      obtain ⟨e, hce⟩ := (collect_error_iff year month files).mpr
        ⟨f, hf, (effDate_error_char f (hinv f hf)).mpr ⟨s, hs, hsne, hp⟩⟩
      rw [hc] at hce
      exact Except.noConfusion hce

/-- Witness for C5: a single file whose `taken_date` "2024-13-99" is
present but malformed makes the call fail. -/
theorem month_summary_error_iff_witness :
    ∃ e, month_summary [⟨"a.jpg", 10, "2024-01-02T03:04:05", some "2024-13-99"⟩]
      2024 5 = .error e :=
  (month_summary_error_iff [⟨"a.jpg", 10, "2024-01-02T03:04:05", some "2024-13-99"⟩]
      2024 5 (by decide)).mpr
    ⟨⟨"a.jpg", 10, "2024-01-02T03:04:05", some "2024-13-99"⟩,
      List.mem_singleton.mpr rfl, "2024-13-99", rfl, by decide, rfl⟩

/-- C9.  If any file has a present, non-empty `taken_date` that does not
parse as `YYYY-MM-DD`, then `month_summary` fails for the entire call, for
every target year and month — in particular even when the malformed date
could not belong to the requested month — because each file's date is
parsed before the year/month filter is applied. -/
theorem month_summary_malformed_fails (files : List FileItem) (year month : Int)
    (h : ∃ f ∈ files, ∃ s, f.taken_date = some s ∧ s ≠ "" ∧ parseYmd s = none) :
    ∃ e, month_summary files year month = .error e := by
  obtain ⟨f, hf, s, hs, hsne, hp⟩ := h
  have heff : ∃ e, effDate f = .error e := by
    refine ⟨"time data does not match format %Y-%m-%d", ?_⟩
    unfold effDate
    rw [hs]
    simp [pyTruthy, hsne, hp]
  obtain ⟨e, hce⟩ := (collect_error_iff year month files).mpr ⟨f, hf, heff⟩
  refine ⟨e, ?_⟩
  unfold month_summary
  rw [hce]

/-- Witness for C9: the malformed `taken_date` "2024-13-05" (month 13,
outside any requested month) fails the whole call at the unrelated target
1999-01. -/
theorem month_summary_malformed_fails_witness :
    ∃ e, month_summary [⟨"x.png", 5, "2024-01-02T03:04:05", some "2024-13-05"⟩]
      1999 1 = .error e :=
  month_summary_malformed_fails
    [⟨"x.png", 5, "2024-01-02T03:04:05", some "2024-13-05"⟩] 1999 1
    ⟨⟨"x.png", 5, "2024-01-02T03:04:05", some "2024-13-05"⟩,
      List.mem_singleton.mpr rfl, "2024-13-05", rfl, by decide, rfl⟩

/-- C10.  A `taken_date` equal to the empty string is treated exactly like
an absent one, because presence is tested by Python truthiness: the summary
of a list headed by such a file equals the summary with that field absent,
and when its `uploaded_at` date component matches the target the file is
bucketed by that date with no parse error. -/
theorem month_summary_empty_taken_date (fn : String) (sz : Nat) (u : String)
    (rest : List FileItem) (year month : Int) :
    month_summary (⟨fn, sz, u, some ""⟩ :: rest) year month
        = month_summary (⟨fn, sz, u, none⟩ :: rest) year month ∧
    (∀ y m d, fromisoDate u = some (y, m, d) → (y : Int) = year →
      (m : Int) = month →
      ∃ s, month_summary [⟨fn, sz, u, some ""⟩] year month = .ok s ∧
        s.days = [d] ∧ s.count_by_day = [(pyNatRepr d, 1)]) := by
  constructor
  · rfl
  · intro y m d hiso hy hm
    have heff : effDate ⟨fn, sz, u, some ""⟩ = .ok (y, m, d) := by
      unfold effDate
      simp [pyTruthy, hiso]
    have hcol : collectMatchedDays [⟨fn, sz, u, some ""⟩] year month = .ok [d] := by
      simp only [collectMatchedDays]
      rw [heff]
      simp [hy, hm]
    refine ⟨⟨year, month, [d], [(pyNatRepr d, 1)]⟩, ?_, rfl, rfl⟩
    unfold month_summary
    rw [hcol]
    simp [dedupSort, dedupNat, sortBy, insertBy, List.count_cons]

/-- Witness for C10: a file with `taken_date = ""` and upload timestamp
2024-05-01T10:00:00 lands on day 1 of 2024-05. -/
theorem month_summary_empty_taken_date_witness :
    ∃ s, month_summary [⟨"e.jpg", 7, "2024-05-01T10:00:00", some ""⟩] 2024 5 = .ok s ∧
      s.days = [1] ∧ s.count_by_day = [(pyNatRepr 1, 1)] :=
  (month_summary_empty_taken_date "e.jpg" 7 "2024-05-01T10:00:00" [] 2024 5).2
    2024 5 1 rfl rfl rfl

/-! ## Claim theorems for the extractor, catalog, writer and path resolver -/

/-- C4.  Every failure of the PIL boundary — not an image, corrupted file,
unsupported format, or any other exception raised during extraction — is
swallowed by the `try/except` of `_exif_taken_date` and collapses to an
absent date, and an image without a metadata block also yields an absent
date; in the embedding the extractor is a total function, so no error can
propagate to the caller. -/
theorem exif_taken_date_failure_absent :
    (∀ e : String, _exif_taken_date (.error e) = none) ∧
    _exif_taken_date (.ok []) = none :=
  ⟨fun _ => rfl, rfl⟩

/-- C6, counterexample.  When both capture-time fields exist but
`DateTimeOriginal` carries the empty string, the extractor does NOT derive
its result from `DateTimeOriginal`: Python's `or` skips the falsy value and
the result comes from `DateTime` instead, so the claim's unqualified
"prefers DateTimeOriginal when both exist" fails at this input. -/
theorem exif_preference_counterexample :
    dictGet [(some "DateTimeOriginal", ""), (some "DateTime", "2025:01:02 03:04:05")]
        (some "DateTimeOriginal") = some "" ∧
    dictGet [(some "DateTimeOriginal", ""), (some "DateTime", "2025:01:02 03:04:05")]
        (some "DateTime") = some "2025:01:02 03:04:05" ∧
    _exif_taken_date
        (.ok [(some "DateTimeOriginal", ""), (some "DateTime", "2025:01:02 03:04:05")])
        = some "2025-01-02" ∧
    some "2025-01-02" ≠ some (exifDateTransform "") := by
  refine ⟨rfl, rfl, rfl, ?_⟩
  decide

/-- C6, amended.  The extractor prefers `DateTimeOriginal` over `DateTime`
whenever `DateTimeOriginal` is present with a truthy (non-empty) value; an
absent or empty `DateTimeOriginal` falls through to `DateTime`; the
returned value is the portion of the embedded `YYYY:MM:DD HH:MM:SS` string
before the first space with every colon rewritten to a hyphen, with no
timezone conversion and no validation (month 13 passes through
unchanged). -/
theorem exif_field_preference (exif : ExifItems) (v w : String) :
    (dictGet exif (some "DateTimeOriginal") = some v → v ≠ "" →
      _exif_taken_date (.ok exif) = some (exifDateTransform v)) ∧
    ((dictGet exif (some "DateTimeOriginal") = none ∨
        dictGet exif (some "DateTimeOriginal") = some "") →
      dictGet exif (some "DateTime") = some w → w ≠ "" →
      _exif_taken_date (.ok exif) = some (exifDateTransform w)) ∧
    exifDateTransform "2024:13:05 10:00:00" = "2024-13-05" := by
  have hne : ∀ (k : Option String) (s : String),
      dictGet exif k = some s → exif.isEmpty = false := by
    intro k s h
    cases exif
    · exact Option.noConfusion h
    · rfl
  refine ⟨?_, ?_, by decide⟩
  · intro h hv
    have hemp := hne _ _ h
    simp [_exif_taken_date, hemp, h, pyOrStr, pyTruthy, hv]
  · intro hO hw hwne
    have hemp := hne _ _ hw
    rcases hO with hO | hO <;>
      simp [_exif_taken_date, hemp, hw, hO, pyOrStr, pyTruthy, hwne]

/-- Witness for the amended C6: a truthy `DateTimeOriginal` wins over a
coexisting `DateTime`. -/
theorem exif_field_preference_witness :
    _exif_taken_date (.ok [(some "DateTimeOriginal", "2031:04:09 08:00:00"),
        (some "DateTime", "2030:01:01 00:00:00")]) =
      some (exifDateTransform "2031:04:09 08:00:00") :=
  (exif_field_preference
      [(some "DateTimeOriginal", "2031:04:09 08:00:00"),
       (some "DateTime", "2030:01:01 00:00:00")]
      "2031:04:09 08:00:00" "2030:01:01 00:00:00").1 rfl (by decide)

/-- C7.  `list_files` returns exactly one record per regular file directly
under the storage root (subdirectories and other non-regular entries are
filtered out before any record is built), sorted by `uploaded_at`
descending under code-point string comparison; an entry whose PIL open
fails (e.g. a non-image file) still yields a record, with `taken_date`
absent; and an empty directory yields the empty list rather than an
error. -/
theorem list_files_spec (entries : List DirEntry)
    (pil : String → Except String ExifItems) :
    (list_files entries pil).Perm
      ((entries.filter (·.isRegularFile)).map (toFileItem pil)) ∧
    (list_files entries pil).Pairwise
      (fun a b => strLe b.uploaded_at.data a.uploaded_at.data = true) ∧
    (∀ e ∈ entries, e.isRegularFile = true → ∀ err, pil e.name = .error err →
      (toFileItem pil e).taken_date = none) ∧
    list_files [] pil = [] := by
  refine ⟨perm_sortBy _ _, ?_, ?_, rfl⟩
  · exact pairwise_sortBy
      (fun (a b : FileItem) => strLe_total b.uploaded_at.data a.uploaded_at.data)
      (fun (a b c : FileItem) hab hbc =>
        strLe_trans c.uploaded_at.data b.uploaded_at.data a.uploaded_at.data hbc hab)
      _
  · intro e _ _ err herr
    show _exif_taken_date (pil e.name) = none
    rw [herr]
    rfl

/-- Witness for C7: a text file whose PIL open raises gets a record with an
absent `taken_date`. -/
theorem list_files_spec_witness :
    (toFileItem (fun _ => .error "cannot identify image file")
      ⟨"notes.txt", true, 3, "2024-01-01T00:00:00"⟩).taken_date = none :=
  (list_files_spec [⟨"notes.txt", true, 3, "2024-01-01T00:00:00"⟩]
      (fun _ => .error "cannot identify image file")).2.2.1
    ⟨"notes.txt", true, 3, "2024-01-01T00:00:00"⟩ (List.mem_singleton.mpr rfl) rfl
    "cannot identify image file" rfl

/-- C1.  For every storage state, separator-free desired name and content
(the flat-map storage model is meaningful exactly for names without `/`;
names with separators are the subject of C3): `save_file` always succeeds;
when the desired name is free the content is written there verbatim and the
desired name is returned; otherwise the returned name is `stem_i.ext` for
the least index `i ≥ 1` whose candidate does not exist, the content is
stored under it, and the bytes of every file that existed before the call
are unchanged. -/
theorem save_file_correct (fs : FS) (filename : String) (content : List Nat)
    (_hplain : ('/' : Char) ∉ filename.data) :
    ∃ out fs', save_file fs filename content = some (out, fs') ∧
      lookupFile fs' out = some content ∧
      (∀ n b, lookupFile fs n = some b → lookupFile fs' n = some b) ∧
      (pathExists fs filename = false → out = filename) ∧
      (pathExists fs filename = true →
        ∃ i, 1 ≤ i ∧
          out = candidate (stemSuffix filename).1 (stemSuffix filename).2 i ∧
          pathExists fs out = false ∧
          ∀ j, 1 ≤ j → j < i →
            pathExists fs
              (candidate (stemSuffix filename).1 (stemSuffix filename).2 j) = true) := by
  by_cases hex : pathExists fs filename = true
  · obtain ⟨c, hc⟩ := probeLoop_some fs (stemSuffix filename).1 (stemSuffix filename).2
    obtain ⟨k, _, hcand, hfree, hocc⟩ := probeLoop_some_spec fs _ _ _ _ c hc
    refine ⟨c, (c, content) :: fs, ?_, ?_, ?_, ?_, ?_⟩
    · unfold save_file
      rw [if_pos hex, hc]
    · simp [lookupFile]
    · intro n b hb
      simp only [lookupFile]
      by_cases hcn : c = n
      · exfalso
        rw [pathExists, hcn, hb] at hfree
        exact Bool.noConfusion hfree
      · rw [if_neg hcn]
        exact hb
    · intro h
      rw [h] at hex
      exact Bool.noConfusion hex
    · intro _
      refine ⟨1 + k, by omega, hcand, hfree, ?_⟩
      intro j h1 hj
      have hj' := hocc (j - 1) (by omega)
      rwa [show 1 + (j - 1) = j by omega] at hj'
  · have hex' : pathExists fs filename = false := by
      revert hex
      cases pathExists fs filename <;> simp
    refine ⟨filename, (filename, content) :: fs, ?_, ?_, ?_, fun _ => rfl, ?_⟩
    · unfold save_file
      rw [if_neg hex]
    · simp [lookupFile]
    · intro n b hb
      simp only [lookupFile]
      by_cases hfn : filename = n
      · exfalso
        rw [pathExists, hfn, hb] at hex'
        exact Bool.noConfusion hex'
      · rw [if_neg hfn]
        exact hb
    · intro h
      rw [h] at hex'
      exact Bool.noConfusion hex'

/-- Witness for C1 at the spec's collision example: saving `photo.jpg` when
it already exists writes `photo_1.jpg` and leaves the original bytes
unchanged. -/
theorem save_file_correct_witness :
    (∃ out fs', save_file [("photo.jpg", [0])] "photo.jpg" [1] = some (out, fs') ∧
      lookupFile fs' out = some [1] ∧
      (∀ n b, lookupFile [("photo.jpg", [0])] n = some b → lookupFile fs' n = some b) ∧
      (pathExists [("photo.jpg", [0])] "photo.jpg" = false → out = "photo.jpg") ∧
      (pathExists [("photo.jpg", [0])] "photo.jpg" = true →
        ∃ i, 1 ≤ i ∧
          out = candidate (stemSuffix "photo.jpg").1 (stemSuffix "photo.jpg").2 i ∧
          pathExists [("photo.jpg", [0])] out = false ∧
          ∀ j, 1 ≤ j → j < i →
            pathExists [("photo.jpg", [0])]
              (candidate (stemSuffix "photo.jpg").1 (stemSuffix "photo.jpg").2 j)
              = true)) ∧
    save_file [("photo.jpg", [0])] "photo.jpg" [1]
      = some ("photo_1.jpg", [("photo_1.jpg", [1]), ("photo.jpg", [0])]) :=
  ⟨save_file_correct [("photo.jpg", [0])] "photo.jpg" [1] (by decide), rfl⟩

/-- C3, evaluated at the failing input.  `get_path` (and the identical path
construction at the head of `save_file`) joins the raw client-supplied name
to the storage root with no sanitization, so the name `../evil.txt` keeps
its `..` traversal segment and the constructed path resolves outside the
`data/` storage root, while a plain name stays inside. -/
theorem get_path_traversal_escape :
    get_path "../evil.txt" = ["data", "..", "evil.txt"] ∧
    ".." ∈ get_path "../evil.txt" ∧
    normalizePath (get_path "../evil.txt") = ["evil.txt"] ∧
    insideRoot (get_path "../evil.txt") = false ∧
    insideRoot (get_path "photo.jpg") = true := by
  refine ⟨rfl, ?_, rfl, rfl, rfl⟩
  decide

end FamilyPhoto
